import Mathlib

/-!
Shallow embedding of the whistle-docs-server documentation cache
(`WhistleDocsCache` in the server source) and proofs about its
search, initialization, extraction and refresh operations.

Strings are modelled as lists of characters; `lower` models the
per-character `toLowerCase` used by the search path.  The parsed
index page is modelled as a function from selector strings to the
list of link elements the selector matches; a parsed section page
is modelled as a function from selector strings to the optional
text of the matched elements (`none` = selector matches nothing).
Network and file-system effects are supplied by an explicit
environment (`Env`).
-/

namespace WhistleDocs

abbrev Str := List Char

/-- Per-character lowercasing, modelling `String.prototype.toLowerCase`. -/
def lower (s : Str) : Str := s.map Char.toLower

/-- Index of the first occurrence of `pat` in `s` at or after offset `j`,
modelling `String.prototype.indexOf` (with `none` for `-1`). -/
def indexOfFrom (pat : Str) : Str → Nat → Option Nat
  | [], j => if pat.isPrefixOf [] then some j else none
  | c :: rest, j =>
      if pat.isPrefixOf (c :: rest) then some j else indexOfFrom pat rest (j + 1)

/-- `s.indexOf(pat)` — first occurrence, `none` for `-1`. -/
def indexOf (s pat : Str) : Option Nat := indexOfFrom pat s 0

/-- `s.includes(pat)`. -/
def includes (s pat : Str) : Bool := (indexOf s pat).isSome

/-- `s.substring(a, b)` for `a ≤ b`, both already clamped to `[0, length]`
by the callers in the source. -/
def sub (s : Str) (a b : Nat) : Str := (s.drop a).take (b - a)

/-- The ellipsis marker appended/prepended to truncated excerpts. -/
def dots : Str := ['.', '.', '.']

/-- ASCII whitespace test used by `trim`. -/
def isWs (c : Char) : Bool := c == ' ' || c == '\n' || c == '\t' || c == '\r'

/-- `String.prototype.trim` (ASCII whitespace). -/
def trim (s : Str) : Str := ((s.dropWhile isWs).reverse.dropWhile isWs).reverse

/-- A documentation section (`DocSection` in the source). -/
structure DocSection where
  id : Str
  title : Str
  content : Str
  url : Str
deriving DecidableEq

/-- A search result (`SearchResult` in the source). -/
structure SearchResult where
  sectionId : Str
  sectionTitle : Str
  matchedContent : Str
  url : Str
deriving DecidableEq

/-- The `matchedContent` computation of `WhistleDocsCache.search`
(source lines 300–323): a 100-character window around the first
case-insensitive content occurrence, with ellipses when clamped,
or the first 200 characters plus an ellipsis on a title-only match. -/
def excerptOf (content query : Str) : Str :=
  let lowerQuery := lower query
  let contentLower := lower content
  match indexOf contentLower lowerQuery with
  | some index =>
      let start := index - 100
      let stop := min content.length (index + query.length + 100)
      let m := sub content start stop
      let m1 := if 0 < start then dots ++ m else m
      if stop < content.length then m1 ++ dots else m1
  | none => sub content 0 200 ++ dots

/-- The per-section body of the `search` loop: `some` result when the
section's title or content contains the query case-insensitively. -/
def matchSection (query : Str) (s : DocSection) : Option SearchResult :=
  let lowerQuery := lower query
  if includes (lower s.title) lowerQuery || includes (lower s.content) lowerQuery then
    some { sectionId := s.id, sectionTitle := s.title,
           matchedContent := excerptOf s.content query, url := s.url }
  else none

/-- `WhistleDocsCache.search` over the in-memory map's values
(in iteration order). -/
def search (docs : List DocSection) (query : Str) : List SearchResult :=
  docs.filterMap (matchSection query)

/-- A link element matched on the index page (`<a>`): optional `href`
attribute and text content. -/
structure Link where
  href : Option Str
  text : Str
deriving DecidableEq

def BASE_URL : Str := "https://wproxy.org/whistle/".toList

def whistlePre : Str := "/whistle/".toList

def htmlSuf : Str := ".html".toList

def httpPre : Str := "http".toList

def hashChar : Str := ['#']

def indexId : Str := "index".toList

def defaultTitle : Str := "Whistle 文档首页".toList

/-- The ordered list of index-page menu selectors (source lines 163–169). -/
def selectors : List Str :=
  [".sidebar-nav ul li a".toList, ".sidebar ul li a".toList, "nav ul li a".toList,
   "#sidebar a".toList, ".menu a".toList]

/-- `href.replace(/^\/whistle\//, "")`. -/
def stripLeadWhistle (s : Str) : Str :=
  if whistlePre.isPrefixOf s then s.drop whistlePre.length else s

/-- `.replace(/\.html$/, "")`. -/
def stripTrailHtml (s : Str) : Str :=
  if htmlSuf.isSuffixOf s then s.take (s.length - htmlSuf.length) else s

/-- `href.replace(/^\/whistle\//, "").replace(/\.html$/, "") || "index"`. -/
def deriveId (href : Str) : Str :=
  let base := stripTrailHtml (stripLeadWhistle href)
  if base = [] then indexId else base

/-- Processing of one index-page link (source lines 181–198): skip
links without a truthy `href`, absolute external URLs, and in-page
anchors; otherwise build a stub section. -/
def processLink (resolve : Str → Str) (l : Link) : Option DocSection :=
  match l.href with
  | none => none
  | some href =>
      if !href.isEmpty && !httpPre.isPrefixOf href && !includes href hashChar then
        some { id := deriveId href,
               title := if trim l.text = [] then deriveId href else trim l.text,
               content := [],
               url := resolve href }
      else none

/-- First selector (in order) that matches at least one link wins;
later selectors are never consulted (source lines 173–203). -/
def findLinks : List Str → (Str → List Link) → Option (List Link)
  | [], _ => none
  | sel :: rest, doc =>
      if (doc sel).length > 0 then some (doc sel) else findLinks rest doc

/-- The synthetic stub pushed when no selector produced any usable link
(source lines 206–214). -/
def defaultSec : DocSection :=
  { id := indexId, title := defaultTitle, content := [], url := BASE_URL }

/-- Index-page section extraction (source lines 160–214).  `resolve`
models `new URL(href, BASE_URL).toString()`. -/
def extractIndexSections (doc : Str → List Link) (resolve : Str → Str) :
    List DocSection :=
  match findLinks selectors doc with
  | none => [defaultSec]
  | some links =>
      let secs := links.filterMap (processLink resolve)
      if secs.isEmpty then [defaultSec] else secs

/-- The ordered list of content-container selectors (source line 231). -/
def contentSelectors : List Str :=
  ["#main".toList, ".content".toList, "article".toList,
   ".markdown-body".toList, "body".toList]

def bodySel : Str := "body".toList

/-- First content selector that matches at least one element yields the
trimmed text (source lines 234–241). -/
def firstContent : List Str → (Str → Option Str) → Option Str
  | [], _ => none
  | sel :: rest, doc =>
      match doc sel with
      | some t => some (trim t)
      | none => firstContent rest doc

/-- Section body extraction (source lines 230–247) with the trailing
whole-body fallback when the chosen selector's text is empty. -/
def extractContent (doc : Str → Option Str) : Str :=
  let c := (firstContent contentSelectors doc).getD []
  if c.isEmpty then trim ((doc bodySel).getD []) else c

/-- Insert-or-update on an association list, preserving insertion order
on update — the semantics of `Map.prototype.set`. -/
def mapSet : List (Str × DocSection) → Str → DocSection → List (Str × DocSection)
  | [], k, v => [(k, v)]
  | (k1, v1) :: rest, k, v =>
      if k = k1 then (k, v) :: rest else (k1, v1) :: mapSet rest k v

/-- `Map.prototype.get` (also the persistent store's read-by-id). -/
def mapLookup : List (Str × DocSection) → Str → Option DocSection
  | [], _ => none
  | (k1, v1) :: rest, k => if k = k1 then some v1 else mapLookup rest k

/-- The cache's mutable state: the in-memory map, the staleness clock,
the initialization flag, and the persistent store's records
(key = section id, one `<id>.json` file per record). -/
structure CacheState where
  sections : List (Str × DocSection)
  lastFetchTime : Nat
  isInitialized : Bool
  store : List (Str × DocSection)
deriving DecidableEq

def CACHE_TTL : Nat := 3600000

/-- The environment supplying the current time, network responses,
URL resolution and file-system outcomes.  `indexDoc` is `none` when
fetching the index page fails; `sectionDoc url` is `none` when fetching
that section page fails; `writeOk` / `deleteOk` model best-effort
file-system writes and deletions. -/
structure Env where
  now : Nat
  indexDoc : Option (Str → List Link)
  sectionDoc : Str → Option (Str → Option Str)
  resolve : Str → Str
  writeOk : Str → Bool
  deleteOk : Str → Bool

/-- Result of an `initialize` call: whether it returned normally,
the cache state afterwards, and how many index-page fetches it
attempted. -/
structure InitOut where
  ok : Bool
  state : CacheState
  fetches : Nat
deriving DecidableEq

/-- Per-stub processing in `initialize` (source lines 217–260): store
lookup first (`getCachedContent` also inserts the parsed record into the
in-memory map before the stub is re-inserted with the adopted content);
on a store miss, fetch the page, extract its body, write the record
(best-effort) and insert it; a failed fetch is caught and the stub
is skipped. -/
def processStub (env : Env) (st : CacheState) (stub : DocSection) : CacheState :=
  match mapLookup st.store stub.id with
  | some cached =>
      { st with sections :=
          (mapSet (mapSet st.sections cached.id cached) stub.id
            ({ stub with content := cached.content })) }
  | none =>
      match env.sectionDoc stub.url with
      | none => st
      | some doc =>
          if env.writeOk stub.id then
            { st with
                store :=
                  (mapSet st.store stub.id
                    ({ stub with content := extractContent doc })),
                sections :=
                  (mapSet st.sections stub.id
                    ({ stub with content := extractContent doc })) }
          else
            { st with sections :=
                (mapSet st.sections stub.id
                  ({ stub with content := extractContent doc })) }

def processStubs (env : Env) : List DocSection → CacheState → CacheState
  | [], st => st
  | stub :: rest, st => processStubs env rest (processStub env st stub)

/-- `WhistleDocsCache.initialize` (source lines 149–269).  Early return
when already initialized and fresh; otherwise one index fetch, which
either fails (the only error path, state untouched) or yields the parsed
index page from which stubs are extracted and processed. -/
def initCache (env : Env) (st : CacheState) : InitOut :=
  if st.isInitialized = true ∧ env.now - st.lastFetchTime < CACHE_TTL then
    ⟨true, st, 0⟩
  else
    match env.indexDoc with
    | none => ⟨false, st, 1⟩
    | some doc =>
        let stubs := extractIndexSections doc env.resolve
        let st1 := processStubs env stubs st
        ⟨true, { st1 with lastFetchTime := env.now, isInitialized := true }, 1⟩

/-- `WhistleDocsCache.getSection` after a successful `initialize`. -/
def getSection (env : Env) (st : CacheState) (i : Str) : Option DocSection :=
  mapLookup (initCache env st).state.sections i

def jsonSuffix : Str := ".json".toList

/-- The store file name for a section id. -/
def fileName (k : Str) : Str := k ++ jsonSuffix

/-- The cache-directory clearing loop of `refreshCache` (source lines
346–355): files are deleted in order; the surrounding `try`/`catch` is
outside the loop, so the first failing deletion aborts the remaining
deletions (the failing record and everything after it survive). -/
def clearFiles (delOk : Str → Bool) : List (Str × DocSection) → List (Str × DocSection)
  | [] => []
  | (k, v) :: rest =>
      if jsonSuffix.isSuffixOf (fileName k) then
        if delOk (fileName k) then clearFiles delOk rest
        else (k, v) :: rest
      else (k, v) :: clearFiles delOk rest

/-- `WhistleDocsCache.refreshCache` (source lines 340–359). -/
def refreshCache (env : Env) (st : CacheState) : InitOut :=
  let st1 := { st with isInitialized := false, sections := [] }
  let st2 := { st1 with store := clearFiles env.deleteOk st1.store }
  initCache env st2

/-! ### Concrete instances used to evaluate the model -/

def idResolve : Str → Str := fun s => s

def s1 : DocSection :=
  { id := "s1".toList, title := "Greeting".toList,
    content := "say hello".toList, url := "u1".toList }

def docs1 : List DocSection := [s1]

def q1 : Str := "HELLO".toList

def r1 : SearchResult :=
  { sectionId := "s1".toList, sectionTitle := "Greeting".toList,
    matchedContent := "say hello".toList, url := "u1".toList }

def q2 : Str := "hello".toList

def env0 : Env :=
  { now := 100, indexDoc := none, sectionDoc := fun _ => none,
    resolve := idResolve, writeOk := fun _ => true, deleteOk := fun _ => true }

def stA : CacheState :=
  { sections := [], lastFetchTime := 50, isInitialized := true, store := [] }

def st0 : CacheState :=
  { sections := [], lastFetchTime := 0, isInitialized := false, store := [] }

def doc4 : Str → List Link := fun sel =>
  if sel = ".sidebar-nav ul li a".toList then
    [{ href := some ("/whistle/bad.html".toList), text := "Bad".toList }]
  else []

def env4 : Env :=
  { now := 7, indexDoc := some doc4, sectionDoc := fun _ => none,
    resolve := idResolve, writeOk := fun _ => true, deleteOk := fun _ => true }

def secOld : DocSection :=
  { id := "old".toList, title := "Old".toList, content := "x".toList,
    url := "uo".toList }

def st5 : CacheState :=
  { sections := [("old".toList, secOld)], lastFetchTime := 0,
    isInitialized := true, store := [("old".toList, secOld)] }

def env5 : Env :=
  { now := 1, indexDoc := some doc4, sectionDoc := fun _ => none,
    resolve := idResolve, writeOk := fun _ => true, deleteOk := fun _ => true }

def docC6 : Str → List Link := fun sel =>
  if sel = ".sidebar-nav ul li a".toList then
    [{ href := some ("/whistle/rules.html".toList), text := "Rules".toList },
     { href := some ("/whistle/plugins.html".toList), text := "Plugins".toList }]
  else []

def envC6 : Env :=
  { now := 3, indexDoc := some docC6,
    sectionDoc := fun _ => some (fun _ => none),
    resolve := idResolve, writeOk := fun _ => true, deleteOk := fun _ => true }

def doc7 : Str → List Link := fun _ => []

def s8 : DocSection :=
  { id := "g".toList, title := "Install Guide".toList, content := "ab".toList,
    url := "u8".toList }

def docs8 : List DocSection := [s8]

def q8 : Str := "guide".toList

def aId : Str := "a".toList

def bId : Str := "b".toList

def secA : DocSection :=
  { id := aId, title := "A".toList, content := [], url := "ua".toList }

def secB : DocSection :=
  { id := bId, title := "B".toList, content := [], url := "ub".toList }

def storeC9 : List (Str × DocSection) := [(aId, secA), (bId, secB)]

def delC9 : Str → Bool := fun f => !(f == fileName aId)

/-! ### Basic facts about the string primitives -/

lemma lower_length (s : Str) : (lower s).length = s.length := by
  simp [lower]

lemma indexOfFrom_some_spec (pat : Str) :
    ∀ (s : Str) (j i : Nat), indexOfFrom pat s j = some i →
      j ≤ i ∧ i - j ≤ s.length ∧ pat <+: s.drop (i - j)
  | [], j, i, h => by
      simp only [indexOfFrom] at h
      split at h
      · rename_i hp
        cases h
        exact ⟨Nat.le_refl _, by simp,
          by simpa using List.isPrefixOf_iff_prefix.mp hp⟩
      · cases h
  | c :: rest, j, i, h => by
      simp only [indexOfFrom] at h
      split at h
      · rename_i hp
        cases h
        exact ⟨Nat.le_refl _, by simp,
          by simpa using List.isPrefixOf_iff_prefix.mp hp⟩
      · obtain ⟨h1, h2, h3⟩ := indexOfFrom_some_spec pat rest (j + 1) i h
        refine ⟨by omega, by simp; omega, ?_⟩
        have hij : i - j = (i - (j + 1)) + 1 := by omega
        rw [hij, List.drop_succ_cons]
        exact h3

lemma indexOf_some_spec (s pat : Str) (i : Nat) (h : indexOf s pat = some i) :
    i ≤ s.length ∧ pat <+: s.drop i := by
  obtain ⟨_, h2, h3⟩ := indexOfFrom_some_spec pat s 0 i h
  simpa using ⟨h2, h3⟩

lemma indexOfFrom_isSome_of_infix (pat : Str) :
    ∀ (s : Str), pat <:+: s → ∀ j, (indexOfFrom pat s j).isSome = true
  | [], h, j => by
      have hp : pat = [] := List.infix_nil.mp h
      subst hp
      simp [indexOfFrom]
  | c :: rest, h, j => by
      simp only [indexOfFrom]
      split
      · simp
      · rename_i hp
        have hnp : ¬ pat <+: c :: rest := fun hc => hp (List.isPrefixOf_iff_prefix.mpr hc)
        rcases List.infix_cons_iff.mp h with h1 | h2
        · exact absurd h1 hnp
        · exact indexOfFrom_isSome_of_infix pat rest h2 (j + 1)

lemma includes_of_infix {s pat : Str} (h : pat <:+: s) : includes s pat = true :=
  indexOfFrom_isSome_of_infix pat s h 0

lemma infix_of_includes {s pat : Str} (h : includes s pat = true) : pat <:+: s := by
  obtain ⟨i, hi⟩ := Option.isSome_iff_exists.mp h
  obtain ⟨_, hpre⟩ := indexOf_some_spec s pat i hi
  obtain ⟨t, ht⟩ := hpre
  exact ⟨s.take i, t, by rw [List.append_assoc, ht, List.take_append_drop]⟩

lemma sub_window (l : Str) (a b i q : Nat) (ha : a ≤ i) (hb : i + q ≤ b) :
    (l.drop i).take q <:+: sub l a b := by
  have h1 : b - a = (i - a) + (q + (b - i - q)) := by omega
  have h2 : a + (i - a) = i := by omega
  have key : sub l a b
      = List.take (i - a) (List.drop a l) ++ (List.take q (List.drop i l)
        ++ List.take (b - i - q) (List.drop (i + q) l)) := by
    unfold sub
    rw [h1, List.take_add, List.drop_drop, h2, List.take_add, List.drop_drop]
  exact ⟨List.take (i - a) (List.drop a l),
    List.take (b - i - q) (List.drop (i + q) l), by rw [key, List.append_assoc]⟩

lemma take_min_length (l : Str) (n : Nat) : l.take (min l.length n) = l.take n := by
  rcases Nat.le_total l.length n with h | h
  · rw [Nat.min_eq_left h, List.take_of_length_le (Nat.le_refl _),
      List.take_of_length_le h]
  · rw [Nat.min_eq_right h]

lemma indexOf_nil (t : Str) : indexOf t [] = some 0 := by
  cases t <;> rfl

lemma includes_nil (t : Str) : includes t [] = true := by
  unfold includes
  rw [indexOf_nil]
  rfl

/-! ### Facts about the map and the persistent store -/

lemma mapLookup_mapSet_ne (m : List (Str × DocSection)) (k : Str) (v : DocSection)
    (i : Str) (h : i ≠ k) : mapLookup (mapSet m k v) i = mapLookup m i := by
  induction m with
  | nil => simp [mapSet, mapLookup, h]
  | cons p rest ih =>
      obtain ⟨k1, v1⟩ := p
      by_cases hk : k = k1
      · subst hk
        simp [mapSet, mapLookup, h]
      · simp only [mapSet, if_neg hk]
        by_cases hik : i = k1
        · simp [mapLookup, hik]
        · simp [mapLookup, hik, ih]

lemma mem_mapSet (m : List (Str × DocSection)) (k : Str) (v : DocSection)
    (p : Str × DocSection) (h : p ∈ mapSet m k v) : p = (k, v) ∨ p ∈ m := by
  induction m with
  | nil => simpa [mapSet] using h
  | cons q rest ih =>
      obtain ⟨k1, v1⟩ := q
      by_cases hk : k = k1
      · subst hk
        simp only [mapSet, if_pos rfl] at h
        rcases List.mem_cons.mp h with h1 | h1
        · exact Or.inl h1
        · exact Or.inr (List.mem_cons.mpr (Or.inr h1))
      · simp only [mapSet, if_neg hk] at h
        rcases List.mem_cons.mp h with h1 | h1
        · exact Or.inr (List.mem_cons.mpr (Or.inl h1))
        · rcases ih h1 with h2 | h2
          · exact Or.inl h2
          · exact Or.inr (List.mem_cons.mpr (Or.inr h2))

lemma mapLookup_mem (m : List (Str × DocSection)) (k : Str) (v : DocSection)
    (h : mapLookup m k = some v) : (k, v) ∈ m := by
  induction m with
  | nil => simp [mapLookup] at h
  | cons p rest ih =>
      obtain ⟨k1, v1⟩ := p
      simp only [mapLookup] at h
      split at h
      · rename_i hk
        injection h with h2
        subst h2
        subst hk
        exact List.mem_cons_self _ _
      · exact List.mem_cons.mpr (Or.inr (ih h))

lemma mapLookup_ne_of_some_of_none (m : List (Str × DocSection)) (k i : Str)
    (v : DocSection) (hk : mapLookup m k = some v) (hi : mapLookup m i = none) :
    k ≠ i := by
  intro he
  subst he
  rw [hk] at hi
  cases hi

lemma json_suffix_fileName (k : Str) : jsonSuffix.isSuffixOf (fileName k) = true :=
  List.isSuffixOf_iff_suffix.mpr (List.suffix_append k jsonSuffix)

lemma clearFiles_all (delOk : Str → Bool) :
    ∀ m : List (Str × DocSection), (∀ p ∈ m, delOk (fileName p.1) = true) →
      clearFiles delOk m = []
  | [], _ => rfl
  | (k, v) :: rest, h => by
      have hk : delOk (fileName k) = true := h (k, v) (List.mem_cons_self _ _)
      simp only [clearFiles, json_suffix_fileName k, if_pos rfl, if_true, hk]
      exact clearFiles_all delOk rest (fun p hp => h p (List.mem_cons.mpr (Or.inr hp)))

/-! ### Facts about stub processing in `initialize` -/

lemma processStub_inv (env : Env) (i : Str) (st : CacheState) (stub : DocSection)
    (hsec : mapLookup st.sections i = none)
    (hsto : mapLookup st.store i = none)
    (hwf : ∀ p ∈ st.store, p.2.id = p.1)
    (hfail : stub.id = i → env.sectionDoc stub.url = none) :
    mapLookup (processStub env st stub).sections i = none ∧
    mapLookup (processStub env st stub).store i = none ∧
    (∀ p ∈ (processStub env st stub).store, p.2.id = p.1) := by
  unfold processStub
  cases hc : mapLookup st.store stub.id with
  | some cached =>
      have hmem : (stub.id, cached) ∈ st.store := mapLookup_mem _ _ _ hc
      have hcid : cached.id = stub.id := hwf (stub.id, cached) hmem
      have hne : stub.id ≠ i := mapLookup_ne_of_some_of_none _ _ _ _ hc hsto
      refine ⟨?_, hsto, hwf⟩
      rw [mapLookup_mapSet_ne _ _ _ _ (Ne.symm hne), hcid,
        mapLookup_mapSet_ne _ _ _ _ (Ne.symm hne)]
      exact hsec
  | none =>
      cases hd : env.sectionDoc stub.url with
      | none => exact ⟨hsec, hsto, hwf⟩
      | some doc =>
          have hne : stub.id ≠ i := by
            intro he
            rw [hfail he] at hd
            cases hd
          by_cases hw : env.writeOk stub.id = true
          · simp only [if_pos hw]
            refine ⟨?_, ?_, ?_⟩
            · rw [mapLookup_mapSet_ne _ _ _ _ (Ne.symm hne)]
              exact hsec
            · rw [mapLookup_mapSet_ne _ _ _ _ (Ne.symm hne)]
              exact hsto
            · intro p hp
              rcases mem_mapSet _ _ _ _ hp with h1 | h1
              · rw [h1]
              · exact hwf p h1
          · simp only [if_neg hw]
            refine ⟨?_, hsto, hwf⟩
            rw [mapLookup_mapSet_ne _ _ _ _ (Ne.symm hne)]
            exact hsec

lemma processStubs_inv (env : Env) (i : Str) :
    ∀ (stubs : List DocSection) (st : CacheState),
      mapLookup st.sections i = none →
      mapLookup st.store i = none →
      (∀ p ∈ st.store, p.2.id = p.1) →
      (∀ stub ∈ stubs, stub.id = i → env.sectionDoc stub.url = none) →
      mapLookup (processStubs env stubs st).sections i = none
  | [], st, hsec, _, _, _ => hsec
  | stub :: rest, st, hsec, hsto, hwf, hstubs => by
      obtain ⟨h1, h2, h3⟩ := processStub_inv env i st stub hsec hsto hwf
        (hstubs stub (List.mem_cons_self _ _))
      exact processStubs_inv env i rest (processStub env st stub) h1 h2 h3
        (fun s hs => hstubs s (List.mem_cons.mpr (Or.inr hs)))

/-! ### Facts about index extraction -/

lemma findLinks_first (doc : Str → List Link) :
    ∀ (ahead : List Str) (sel : Str) (rest2 : List Str),
      (∀ x ∈ ahead, doc x = []) → (doc sel).length > 0 →
      findLinks (ahead ++ sel :: rest2) doc = some (doc sel)
  | [], sel, rest2, _, hlen => by
      simp only [List.nil_append, findLinks, if_pos hlen]
  | a :: tl, sel, rest2, hall, hlen => by
      have ha : doc a = [] := hall a (List.mem_cons_self _ _)
      have htl := findLinks_first doc tl sel rest2
        (fun x hx => hall x (List.mem_cons.mpr (Or.inr hx))) hlen
      simp only [List.cons_append, findLinks, ha]
      simpa using htl

lemma deriveId_whistle_html (rest : Str) (h : rest ≠ []) :
    deriveId (whistlePre ++ rest ++ htmlSuf) = rest := by
  unfold deriveId stripLeadWhistle stripTrailHtml
  have h1 : whistlePre.isPrefixOf (whistlePre ++ rest ++ htmlSuf) = true := by
    rw [List.append_assoc]
    exact List.isPrefixOf_iff_prefix.mpr (List.prefix_append _ _)
  rw [if_pos h1, List.append_assoc, List.drop_left]
  have h2 : htmlSuf.isSuffixOf (rest ++ htmlSuf) = true :=
    List.isSuffixOf_iff_suffix.mpr (List.suffix_append _ _)
  rw [if_pos h2]
  have h3 : (rest ++ htmlSuf).length - htmlSuf.length = rest.length := by
    rw [List.length_append, Nat.add_sub_cancel]
  rw [h3, List.take_left, if_neg h]

lemma httpPre_not_prefixOf_slash (s : Str) :
    httpPre.isPrefixOf ('/' :: s) = false := rfl

lemma whistle_href_cons (rest : Str) :
    whistlePre ++ rest ++ htmlSuf = '/' :: ("whistle/".toList ++ rest ++ htmlSuf) := by
  rw [List.append_assoc, List.append_assoc]
  rfl

/-! ### Claim theorems -/

/-- C1: for every section `s` in the scanned map and every query that
occurs case-insensitively in `s.content`, `search` returns for `s` an
excerpt built from the window of 100 characters before and after the
first case-insensitive occurrence (start clamped to 0, end clamped to
the content length), containing the matched substring; a `"..."` prefix
appears exactly when the clamped window start is positive, and a `"..."`
suffix exactly when the clamped window end is below the content length. -/
theorem search_content_window (docs : List DocSection) (s : DocSection) (query : Str)
    (hs : s ∈ docs) (hocc : lower query <:+: lower s.content) :
    ∃ i, indexOf (lower s.content) (lower query) = some i ∧
      ∃ r ∈ search docs query,
        r.sectionId = s.id ∧
        r.matchedContent =
          (if 0 < i - 100 then dots else []) ++
            sub s.content (i - 100) (min s.content.length (i + query.length + 100)) ++
          (if min s.content.length (i + query.length + 100) < s.content.length then dots
           else []) ∧
        (s.content.drop i).take query.length <:+:
          sub s.content (i - 100) (min s.content.length (i + query.length + 100)) := by
  have hinc : includes (lower s.content) (lower query) = true := includes_of_infix hocc
  obtain ⟨i, hi⟩ := Option.isSome_iff_exists.mp hinc
  refine ⟨i, hi, ?_⟩
  have hmatch : matchSection query s =
      some { sectionId := s.id, sectionTitle := s.title,
             matchedContent := excerptOf s.content query, url := s.url } := by
    unfold matchSection
    dsimp only
    rw [hinc, Bool.or_true, if_pos rfl]
  refine ⟨_, List.mem_filterMap.mpr ⟨s, hs, hmatch⟩, rfl, ?_, ?_⟩
  · show excerptOf s.content query = _
    unfold excerptOf
    dsimp only
    rw [hi]
    dsimp only
    split <;> split <;> simp
  · obtain ⟨hlen, hpre⟩ := indexOf_some_spec _ _ _ hi
    have hql : (lower query).length ≤ (lower s.content).length - i :=
      le_trans hpre.length_le (by rw [List.length_drop])
    rw [lower_length] at hlen
    rw [lower_length, lower_length] at hql
    exact sub_window s.content (i - 100)
      (min s.content.length (i + query.length + 100)) i query.length
      (by omega) (by omega)

theorem search_content_window_w :
    s1 ∈ docs1 ∧ lower q1 <:+: lower s1.content ∧
    (∃ i, indexOf (lower s1.content) (lower q1) = some i ∧
      ∃ r ∈ search docs1 q1,
        r.sectionId = s1.id ∧
        r.matchedContent =
          (if 0 < i - 100 then dots else []) ++
            sub s1.content (i - 100) (min s1.content.length (i + q1.length + 100)) ++
          (if min s1.content.length (i + q1.length + 100) < s1.content.length then dots
           else []) ∧
        (s1.content.drop i).take q1.length <:+:
          sub s1.content (i - 100) (min s1.content.length (i + q1.length + 100))) :=
  ⟨by decide, by decide, search_content_window docs1 s1 q1 (by decide) (by decide)⟩

/-- C2: every result returned by `search` corresponds to a section of
the scanned map whose title or content contains the query as a
case-insensitive substring — no false positives. -/
theorem search_no_false_positives (docs : List DocSection) (query : Str)
    (r : SearchResult) (_hq : query ≠ []) (hr : r ∈ search docs query) :
    ∃ s ∈ docs, r.sectionId = s.id ∧ r.sectionTitle = s.title ∧ r.url = s.url ∧
      (lower query <:+: lower s.title ∨ lower query <:+: lower s.content) := by
  obtain ⟨s, hs, hm⟩ := List.mem_filterMap.mp hr
  unfold matchSection at hm
  dsimp only at hm
  split at hm
  · rename_i hcond
    injection hm with hm
    subst hm
    rw [Bool.or_eq_true] at hcond
    rcases hcond with h1 | h1
    · exact ⟨s, hs, rfl, rfl, rfl, Or.inl (infix_of_includes h1)⟩
    · exact ⟨s, hs, rfl, rfl, rfl, Or.inr (infix_of_includes h1)⟩
  · cases hm

theorem search_no_false_positives_w :
    q2 ≠ [] ∧ r1 ∈ search docs1 q2 ∧
    (∃ s ∈ docs1, r1.sectionId = s.id ∧ r1.sectionTitle = s.title ∧ r1.url = s.url ∧
      (lower q2 <:+: lower s.title ∨ lower q2 <:+: lower s.content)) :=
  ⟨by decide, by decide,
    search_no_false_positives docs1 q2 r1 (by decide) (by decide)⟩

/-- C8: for a title-only match (the title contains the query
case-insensitively but the content does not), the returned excerpt is
the first 200 characters of the content followed by an ellipsis,
appended unconditionally. -/
theorem title_only_excerpt (docs : List DocSection) (s : DocSection) (query : Str)
    (hs : s ∈ docs)
    (ht : includes (lower s.title) (lower query) = true)
    (hc : includes (lower s.content) (lower query) = false) :
    ∃ r ∈ search docs query,
      r.sectionId = s.id ∧ r.matchedContent = s.content.take 200 ++ dots := by
  have hnone : indexOf (lower s.content) (lower query) = none := by
    unfold includes at hc
    exact Option.not_isSome_iff_eq_none.mp (by simp [hc])
  have hmatch : matchSection query s =
      some { sectionId := s.id, sectionTitle := s.title,
             matchedContent := excerptOf s.content query, url := s.url } := by
    unfold matchSection
    dsimp only
    rw [ht, Bool.true_or, if_pos rfl]
  refine ⟨_, List.mem_filterMap.mpr ⟨s, hs, hmatch⟩, rfl, ?_⟩
  show excerptOf s.content query = _
  unfold excerptOf
  dsimp only
  rw [hnone]
  simp [sub]

theorem title_only_excerpt_w :
    s8 ∈ docs8 ∧ includes (lower s8.title) (lower q8) = true ∧
    includes (lower s8.content) (lower q8) = false ∧
    (∃ r ∈ search docs8 q8,
      r.sectionId = s8.id ∧ r.matchedContent = s8.content.take 200 ++ dots) :=
  ⟨by decide, by decide, by decide,
    title_only_excerpt docs8 s8 q8 (by decide) (by decide) (by decide)⟩

/-- C10: the empty query matches every section (the empty string is a
substring of every title), the first occurrence index is 0, and each
result's excerpt is the clamped window starting at content index 0 with
no leading ellipsis. -/
theorem empty_query_all_sections (docs : List DocSection) :
    (search docs []).length = docs.length ∧
    search docs [] = docs.map (fun s =>
      { sectionId := s.id, sectionTitle := s.title,
        matchedContent := s.content.take 100 ++
          (if 100 < s.content.length then dots else []),
        url := s.url }) := by
  have hms : ∀ s : DocSection, matchSection [] s =
      some { sectionId := s.id, sectionTitle := s.title,
             matchedContent := s.content.take 100 ++
               (if 100 < s.content.length then dots else []),
             url := s.url } := by
    intro s
    unfold matchSection
    dsimp only
    rw [show lower [] = [] from rfl, includes_nil, Bool.true_or, if_pos rfl]
    have hex : excerptOf s.content [] = s.content.take 100 ++
        (if 100 < s.content.length then dots else []) := by
      unfold excerptOf
      dsimp only
      rw [show lower [] = [] from rfl, indexOf_nil]
      dsimp only
      have hsub : sub s.content (0 - 100)
          (min s.content.length (0 + List.length ([] : Str) + 100)) =
            s.content.take 100 := by
        unfold sub
        simp only [List.length_nil]
        rw [Nat.zero_sub, List.drop_zero, Nat.sub_zero, Nat.zero_add,
          take_min_length]
      have hcond : (min s.content.length (0 + List.length ([] : Str) + 100) <
          s.content.length) = (100 < s.content.length) := by
        simp only [List.length_nil, Nat.zero_add]
        exact propext (by omega)
      rw [hsub]
      simp only [hcond]
      have h0 : ¬ (0 < 0 - 100) := by omega
      simp only [if_neg h0]
      split <;> simp
    rw [hex]
  have hsearch : search docs [] = docs.map (fun s =>
      { sectionId := s.id, sectionTitle := s.title,
        matchedContent := s.content.take 100 ++
          (if 100 < s.content.length then dots else []),
        url := s.url }) := by
    induction docs with
    | nil => rfl
    | cons a tl ih =>
        simp only [search, List.filterMap_cons, hms a, List.map_cons]
        rw [← ih]
        rfl
  exact ⟨by rw [hsearch, List.length_map], hsearch⟩

/-- C3: `initialize` is a no-op (no fetch, state unchanged) when the
cache is initialized and fresh; consequently two `initialize` calls
where the second falls inside the TTL window of the first's resulting
state perform at most one index fetch in total. -/
theorem init_ttl_noop :
    (∀ (env : Env) (st : CacheState), st.isInitialized = true →
        env.now - st.lastFetchTime < CACHE_TTL →
        initCache env st = ⟨true, st, 0⟩) ∧
    (∀ (env1 env2 : Env) (st0 st1 : CacheState) (n1 : Nat),
        initCache env1 st0 = ⟨true, st1, n1⟩ →
        env2.now - st1.lastFetchTime < CACHE_TTL →
        initCache env2 st1 = ⟨true, st1, 0⟩ ∧
        n1 + (initCache env2 st1).fetches ≤ 1) := by
  have noop : ∀ (env : Env) (st : CacheState), st.isInitialized = true →
      env.now - st.lastFetchTime < CACHE_TTL → initCache env st = ⟨true, st, 0⟩ := by
    intro env st h1 h2
    unfold initCache
    rw [if_pos ⟨h1, h2⟩]
  refine ⟨noop, ?_⟩
  intro env1 env2 st0 st1 n1 hinit h2
  have hfacts : st1.isInitialized = true ∧ n1 ≤ 1 := by
    unfold initCache at hinit
    split at hinit
    · rename_i hcond
      injection hinit with _ he hn
      subst he
      exact ⟨hcond.1, by omega⟩
    · cases henv : env1.indexDoc with
      | none =>
          rw [henv] at hinit
          injection hinit with hfalse _ _
          cases hfalse
      | some doc =>
          rw [henv] at hinit
          injection hinit with _ he hn
          subst he
          exact ⟨rfl, by omega⟩
  have hsecond := noop env2 st1 hfacts.1 h2
  refine ⟨hsecond, ?_⟩
  have hz : (initCache env2 st1).fetches = 0 := by rw [hsecond]
  have := hfacts.2
  omega

theorem init_ttl_noop_w :
    stA.isInitialized = true ∧ env0.now - stA.lastFetchTime < CACHE_TTL ∧
    initCache env0 stA = ⟨true, stA, 0⟩ :=
  ⟨rfl, by decide, init_ttl_noop.1 env0 stA rfl (by decide)⟩

/-- C4: `initialize` fails only when the index fetch itself fails, and
then leaves `isInitialized` and `lastFetchTime` unchanged; when the
index fetch succeeds (and the call is not a fresh-cache no-op) the call
succeeds, sets `isInitialized = true` and `lastFetchTime = now`, and an
id whose every stub fails its section fetch ends up absent from the
in-memory map. -/
theorem init_error_only_index_fetch (env : Env) (st : CacheState) :
    ((initCache env st).ok = false →
      env.indexDoc = none ∧
      (initCache env st).state.isInitialized = st.isInitialized ∧
      (initCache env st).state.lastFetchTime = st.lastFetchTime) ∧
    (∀ doc, env.indexDoc = some doc →
      ¬ (st.isInitialized = true ∧ env.now - st.lastFetchTime < CACHE_TTL) →
      (initCache env st).ok = true ∧
      (initCache env st).state.isInitialized = true ∧
      (initCache env st).state.lastFetchTime = env.now ∧
      (∀ i : Str,
        mapLookup st.sections i = none →
        mapLookup st.store i = none →
        (∀ p ∈ st.store, p.2.id = p.1) →
        (∀ stub ∈ extractIndexSections doc env.resolve, stub.id = i →
            env.sectionDoc stub.url = none) →
        mapLookup (initCache env st).state.sections i = none)) := by
  by_cases hcond : st.isInitialized = true ∧ env.now - st.lastFetchTime < CACHE_TTL
  · constructor
    · intro hfail
      unfold initCache at hfail
      rw [if_pos hcond] at hfail
      cases hfail
    · intro doc _ hncond
      exact absurd hcond hncond
  · cases henv : env.indexDoc with
    | none =>
        constructor
        · intro _
          have hst : initCache env st = ⟨false, st, 1⟩ := by
            unfold initCache
            rw [if_neg hcond, henv]
          rw [hst]
          exact ⟨rfl, rfl, rfl⟩
        · intro doc hdoc _
          cases hdoc
    | some doc =>
        have hst : initCache env st =
            ⟨true,
              { processStubs env (extractIndexSections doc env.resolve) st with
                  lastFetchTime := env.now, isInitialized := true }, 1⟩ := by
          unfold initCache
          rw [if_neg hcond, henv]
        constructor
        · intro hfail
          rw [hst] at hfail
          cases hfail
        · intro doc2 hdoc2 _
          have hdd : doc2 = doc := by
            injection hdoc2 with h
            exact h.symm
          subst hdd
          rw [hst]
          refine ⟨rfl, rfl, rfl, ?_⟩
          intro i hsec hsto hwf hstubs
          exact processStubs_inv env i (extractIndexSections doc2 env.resolve) st
            hsec hsto hwf hstubs

theorem init_error_only_index_fetch_w :
    env4.indexDoc = some doc4 ∧
    ¬ (st0.isInitialized = true ∧ env4.now - st0.lastFetchTime < CACHE_TTL) ∧
    (initCache env4 st0).ok = true ∧
    (initCache env4 st0).state.isInitialized = true ∧
    (initCache env4 st0).state.lastFetchTime = env4.now ∧
    mapLookup (initCache env4 st0).state.sections ("bad".toList) = none :=
  have h := (init_error_only_index_fetch env4 st0).2 doc4 rfl (by decide)
  ⟨rfl, by decide, h.1, h.2.1, h.2.2.1,
    h.2.2.2 ("bad".toList) rfl rfl
      (fun p hp => absurd hp (List.not_mem_nil p))
      (fun stub _ _ => rfl)⟩

/-- C5: `refreshCache` unconditionally resets `isInitialized`, empties
the in-memory map and the persistent store, and re-runs `initialize`
from that wiped state (so the re-crawl reuses no previously cached
content); when the index page is fetchable the refresh ends with
`isInitialized = true`. -/
theorem refresh_clears_and_recrawls (env : Env) (st : CacheState)
    (hdel : ∀ p ∈ st.store, env.deleteOk (fileName p.1) = true) :
    refreshCache env st =
      initCache env
        { st with isInitialized := false, sections := [], store := [] } ∧
    (∀ doc, env.indexDoc = some doc →
      (refreshCache env st).ok = true ∧
      (refreshCache env st).state.isInitialized = true) := by
  have hclear : clearFiles env.deleteOk st.store = [] := clearFiles_all _ _ hdel
  have heq : refreshCache env st =
      initCache env
        { st with isInitialized := false, sections := [], store := [] } := by
    unfold refreshCache
    dsimp only
    rw [hclear]
  refine ⟨heq, ?_⟩
  intro doc hdoc
  rw [heq]
  have hrun : initCache env
      { st with isInitialized := false, sections := [], store := [] } =
      ⟨true,
        { processStubs env (extractIndexSections doc env.resolve)
            { st with isInitialized := false, sections := [], store := [] } with
            lastFetchTime := env.now, isInitialized := true }, 1⟩ := by
    unfold initCache
    rw [if_neg (by simp), hdoc]
  rw [hrun]
  exact ⟨rfl, rfl⟩

theorem refresh_clears_and_recrawls_w :
    (∀ p ∈ st5.store, env5.deleteOk (fileName p.1) = true) ∧
    refreshCache env5 st5 =
      initCache env5
        { st5 with isInitialized := false, sections := [], store := [] } ∧
    (refreshCache env5 st5).ok = true ∧
    (refreshCache env5 st5).state.isInitialized = true :=
  have h := refresh_clears_and_recrawls env5 st5 (fun _ _ => rfl)
  ⟨fun _ _ => rfl, h.1, (h.2 doc4 rfl).1, (h.2 doc4 rfl).2⟩

/-- C6: index parsing uses the first selector yielding at least one
link and consults no later selector; a link whose target is an absolute
external URL or an in-page anchor (or whose `href` is empty) is
skipped; a `/whistle/<id>.html` link yields a stub with that id, with
the title falling back to the id when the trimmed link text is empty;
and on the concrete rules/plugins index page the extractor yields ids
`rules` and `plugins` and `getSection "rules"` returns a section with
id `rules` and title `Rules`. -/
theorem index_first_selector_scenario :
    (∀ (doc : Str → List Link) (ahead : List Str) (sel : Str) (rest2 : List Str),
        selectors = ahead ++ sel :: rest2 → (∀ x ∈ ahead, doc x = []) →
        (doc sel).length > 0 → findLinks selectors doc = some (doc sel)) ∧
    (∀ (resolve : Str → Str) (t h : Str),
        httpPre.isPrefixOf h = true ∨ includes h hashChar = true ∨ h = [] →
        processLink resolve { href := some h, text := t } = none) ∧
    (∀ (resolve : Str → Str) (t rest : Str), rest ≠ [] →
        includes (whistlePre ++ rest ++ htmlSuf) hashChar = false →
        processLink resolve { href := some (whistlePre ++ rest ++ htmlSuf), text := t } =
          some { id := rest,
                 title := if trim t = [] then rest else trim t,
                 content := [],
                 url := resolve (whistlePre ++ rest ++ htmlSuf) }) ∧
    (extractIndexSections docC6 envC6.resolve).map (fun s => s.id) =
      ["rules".toList, "plugins".toList] ∧
    (∃ sec, getSection envC6 st0 ("rules".toList) = some sec ∧
        sec.id = "rules".toList ∧ sec.title = "Rules".toList) := by
  refine ⟨?_, ?_, ?_, by decide, ?_⟩
  · intro doc ahead sel rest2 hsel hall hlen
    rw [hsel]
    exact findLinks_first doc ahead sel rest2 hall hlen
  · intro resolve t h hcase
    unfold processLink
    rcases hcase with h1 | h1 | h1
    · simp [h1]
    · simp [h1]
    · subst h1
      simp
  · intro resolve t rest hne hhash
    unfold processLink
    dsimp only
    have hemp : (whistlePre ++ rest ++ htmlSuf).isEmpty = false := by
      rw [whistle_href_cons]
      rfl
    have hpre : httpPre.isPrefixOf (whistlePre ++ rest ++ htmlSuf) = false := by
      rw [whistle_href_cons]
      exact httpPre_not_prefixOf_slash _
    rw [hemp, hpre, hhash]
    simp only [Bool.not_false, Bool.and_true, Bool.true_and, if_true]
    rw [deriveId_whistle_html rest hne]
  · exact ⟨{ id := "rules".toList, title := "Rules".toList, content := [],
             url := "/whistle/rules.html".toList },
      by decide, by decide, by decide⟩

theorem index_first_selector_scenario_w :
    selectors = [] ++ (".sidebar-nav ul li a".toList) ::
      [".sidebar ul li a".toList, "nav ul li a".toList, "#sidebar a".toList,
       ".menu a".toList] ∧
    (docC6 (".sidebar-nav ul li a".toList)).length > 0 ∧
    findLinks selectors docC6 = some (docC6 (".sidebar-nav ul li a".toList)) ∧
    processLink idResolve { href := some ("https://example.com".toList),
                            text := "Ext".toList } = none ∧
    processLink idResolve
        { href := some (whistlePre ++ "rules".toList ++ htmlSuf),
          text := "Rules".toList } =
      some { id := "rules".toList,
             title := if trim ("Rules".toList) = [] then "rules".toList
               else trim ("Rules".toList),
             content := [],
             url := idResolve (whistlePre ++ "rules".toList ++ htmlSuf) } :=
  ⟨by decide, by decide,
    index_first_selector_scenario.1 docC6 [] (".sidebar-nav ul li a".toList)
      [".sidebar ul li a".toList, "nav ul li a".toList, "#sidebar a".toList,
       ".menu a".toList] (by decide)
      (fun x hx => absurd hx (List.not_mem_nil x)) (by decide),
    index_first_selector_scenario.2.1 idResolve _ _ (Or.inl (by decide)),
    index_first_selector_scenario.2.2.1 idResolve _ _ (by decide) (by decide)⟩

/-- C7: index extraction never returns an empty list — when no selector
yields a link, or every discovered link is filtered out, the single
synthetic stub with id `index` and the base URL is returned. -/
theorem extract_never_empty (doc : Str → List Link) (resolve : Str → Str) :
    extractIndexSections doc resolve ≠ [] ∧
    (findLinks selectors doc = none →
        extractIndexSections doc resolve = [defaultSec]) ∧
    (∀ links, findLinks selectors doc = some links →
        links.filterMap (processLink resolve) = [] →
        extractIndexSections doc resolve = [defaultSec]) := by
  refine ⟨?_, ?_, ?_⟩
  · unfold extractIndexSections
    cases hf : findLinks selectors doc with
    | none => simp
    | some links =>
        dsimp only
        split
        · simp
        · rename_i hne
          intro hcontra
          rw [hcontra] at hne
          simp at hne
  · intro hf
    unfold extractIndexSections
    rw [hf]
  · intro links hf hempty
    unfold extractIndexSections
    rw [hf]
    dsimp only
    rw [if_pos (by rw [hempty]; rfl)]

theorem extract_never_empty_w :
    findLinks selectors doc7 = none ∧
    extractIndexSections doc7 idResolve = [defaultSec] ∧
    extractIndexSections doc7 idResolve ≠ [] :=
  ⟨by decide, (extract_never_empty doc7 idResolve).2.1 (by decide),
    (extract_never_empty doc7 idResolve).1⟩

/-- C9 counterexample: in the store `[a, b]` where deleting `a.json`
fails and deleting `b.json` would succeed, the clear loop aborts at
`a`, so record `b` survives — refuting the claim that the remaining
records are still attempted for deletion. -/
theorem clear_abort_cex :
    delC9 (fileName bId) = true ∧ (bId, secB) ∈ clearFiles delC9 storeC9 := by
  decide

/-- C9 (amended): the clear loop of `refreshCache` deletes records in
order until the first failing deletion; the failure is caught outside
the loop, so the failing record and every record after it remain (the
remaining deletions are not attempted), and `refreshCache` itself still
proceeds to re-initialize (succeeding whenever the index page is
fetchable). -/
theorem clear_stops_at_first_failure (delOk : Str → Bool)
    (m1 m2 : List (Str × DocSection)) (x : Str × DocSection)
    (h1 : ∀ p ∈ m1, delOk (fileName p.1) = true)
    (h2 : delOk (fileName x.1) = false) :
    clearFiles delOk (m1 ++ x :: m2) = x :: m2 ∧
    (∀ (env : Env) (st : CacheState) (doc : Str → List Link),
        env.indexDoc = some doc → (refreshCache env st).ok = true) := by
  constructor
  · induction m1 with
    | nil =>
        obtain ⟨xk, xv⟩ := x
        simp only [List.nil_append, clearFiles, json_suffix_fileName, if_true]
        rw [if_neg (by simp [h2])]
    | cons p tl ih =>
        obtain ⟨pk, pv⟩ := p
        have hp : delOk (fileName pk) = true := h1 (pk, pv) (List.mem_cons_self _ _)
        simp only [List.cons_append, clearFiles, json_suffix_fileName, if_true, hp]
        exact ih (fun q hq => h1 q (List.mem_cons.mpr (Or.inr hq)))
  · intro env st doc hdoc
    unfold refreshCache
    dsimp only
    unfold initCache
    rw [if_neg (by simp), hdoc]

theorem clear_stops_at_first_failure_w :
    (∀ p ∈ ([] : List (Str × DocSection)), delC9 (fileName p.1) = true) ∧
    delC9 (fileName aId) = false ∧
    clearFiles delC9 ([] ++ (aId, secA) :: [(bId, secB)]) =
      (aId, secA) :: [(bId, secB)] :=
  ⟨fun p hp => absurd hp (List.not_mem_nil p), by decide,
    (clear_stops_at_first_failure delC9 [] [(bId, secB)] (aId, secA)
      (fun p hp => absurd hp (List.not_mem_nil p)) (by decide)).1⟩

end WhistleDocs
